import Mathlib

/-!
Verification of the fitness-tracker backend (Node/Express + PostgreSQL).

The relational tables are modelled as Lean lists of rows; each SQL query of
`src/backend/models/*.js` becomes a pure Lean function over those lists, and
each Express route handler becomes a function from a request to a response
value plus the updated store.  Decimal columns (`DECIMAL(10,2)`) are modelled
as rationals, `DATE` columns and timestamps as natural numbers ordered the
same way, and nullable columns as `Option`.
-/

namespace Fitness

/-- A row of the `users` table (src/unnamed/part_003). -/
structure User where
  id : Nat
  username : String
  password_hash : String
  created_at : Nat
deriving Repr, DecidableEq

/-- A row of the `workout_entries` table (src/unnamed/part_003). -/
structure WorkoutEntry where
  id : Nat
  user_id : Nat
  date : Nat
  exercise_name : String
  sets : Option Int
  reps : Option Int
  weight : Option Rat
  duration : Option Int
  created_at : Nat
deriving Repr, DecidableEq

/-- A row of the `personal_records` table (src/unnamed/part_003). -/
structure PersonalRecord where
  id : Nat
  user_id : Nat
  exercise_name : String
  record_type : String
  value : Rat
  date : Nat
  workout_entry_id : Option Nat
  created_at : Nat
deriving Repr, DecidableEq

/-- SQL `lower(...)` / JavaScript `toLowerCase()`: lower-case every
character (computable by structural recursion over the character data). -/
def lowerStr (s : String) : String := String.mk (s.data.map Char.toLower)

/-- JavaScript `.trim()` / the `.trim()` sanitizer: drop leading and
trailing whitespace (structural recursion over the character data). -/
def trimStr (s : String) : String :=
  String.mk
    (((s.data.dropWhile Char.isWhitespace).reverse.dropWhile
      Char.isWhitespace).reverse)

/-- JavaScript `str.split(c)` for a one-character separator: split at every
occurrence, keeping empty segments. -/
def splitOnChar (c : Char) : List Char → List (List Char)
  | [] => [[]]
  | x :: xs =>
    let r := splitOnChar c xs
    if x = c then [] :: r
    else
      match r with
      | [] => [[x]]
      | h :: t => (x :: h) :: t

/-- The WHERE clause of `getLatestPersonalRecordForExercise`
(workoutModel.js): `user_id = $1 AND lower(exercise_name) = lower($2) AND
record_type = $3`. -/
def prMatches (userId : Nat) (exerciseName recordType : String)
    (r : PersonalRecord) : Bool :=
  r.user_id == userId && lowerStr r.exercise_name == lowerStr exerciseName &&
    r.record_type == recordType

/-- `a` sorts strictly before `b` under `ORDER BY value DESC, date DESC`. -/
def betterRec (a b : PersonalRecord) : Bool :=
  decide (b.value < a.value) ||
    (decide (a.value = b.value) && decide (b.date < a.date))

/-- `ORDER BY value DESC, date DESC LIMIT 1`: the first row of the sorted
list, i.e. the earliest listed row that is maximal for (value, date). -/
def pickBest : List PersonalRecord → Option PersonalRecord
  | [] => none
  | r :: rs =>
    match pickBest rs with
    | none => some r
    | some b => if betterRec b r then some b else some r

/-- `workoutModel.getLatestPersonalRecordForExercise` (workoutModel.js
lines 130-146): best `record_type` record for the user and exercise, with the
exercise name compared case-insensitively. -/
def getLatestPersonalRecordForExercise (userId : Nat)
    (exerciseName recordType : String) (prs : List PersonalRecord) :
    Option PersonalRecord :=
  pickBest (prs.filter (prMatches userId exerciseName recordType))

/-- `workoutModel.getCurrentPersonalRecords` (workoutModel.js lines 105-121):
`SELECT DISTINCT ON (exercise_name, record_type) ... WHERE user_id = $1
ORDER BY exercise_name, record_type, value DESC, date DESC` — one row per
(exercise_name, record_type) group of the user, the row with the greatest
value, ties broken by latest date.  Grouping is on the exact (case-sensitive)
column values. -/
def getCurrentPersonalRecords (userId : Nat) (prs : List PersonalRecord) :
    List PersonalRecord :=
  let rows := prs.filter (fun r => r.user_id == userId)
  let keys := (rows.map (fun r => (r.exercise_name, r.record_type))).dedup
  keys.filterMap (fun k =>
    pickBest (rows.filter (fun r =>
      r.exercise_name == k.1 && r.record_type == k.2)))

/-- Which database calls fail, modelling thrown `pool.query` errors in
`createWorkoutEntry`, `getLatestPersonalRecordForExercise` and
`addPersonalRecord`. -/
structure DbFailures where
  insertEntryFails : Bool
  prLookupFails : Bool
  prInsertFails : Bool
deriving Repr, DecidableEq

/-- `workoutModel.checkAndRecordPRs` (workoutModel.js lines 155-186) with its
`try/catch` made explicit: when the entry's weight is not a number or is
`<= 0`, PR detection is skipped; otherwise the current best `max_weight`
record is looked up and a new record row (carrying the workout entry's
original exercise-name casing and referencing the entry) is inserted exactly
when no current record exists or the new weight is strictly greater.  A
thrown lookup or insert error is caught inside the function: it logs and
returns `null` without aborting the caller. -/
def checkAndRecordPRsF (f : DbFailures) (userId : Nat) (e : WorkoutEntry)
    (prs : List PersonalRecord) (freshId now : Nat) :
    Option PersonalRecord × List PersonalRecord :=
  match e.weight with
  | none => (none, prs)
  | some w =>
    if w ≤ 0 then (none, prs)
    else if f.prLookupFails then (none, prs)
    else
      let doInsert : Option PersonalRecord × List PersonalRecord :=
        if f.prInsertFails then (none, prs)
        else
          let pr : PersonalRecord :=
            { id := freshId, user_id := userId,
              exercise_name := e.exercise_name, record_type := "max_weight",
              value := w, date := e.date, workout_entry_id := some e.id,
              created_at := now }
          (some pr, prs ++ [pr])
      match getLatestPersonalRecordForExercise userId e.exercise_name
          "max_weight" prs with
      | none => doInsert
      | some cur => if cur.value < w then doInsert else (none, prs)

/-- `checkAndRecordPRs` on the happy path (no database call throws). -/
def checkAndRecordPRs (userId : Nat) (e : WorkoutEntry)
    (prs : List PersonalRecord) (freshId now : Nat) :
    Option PersonalRecord × List PersonalRecord :=
  checkAndRecordPRsF ⟨false, false, false⟩ userId e prs freshId now

/-- Row shape produced by the `SELECT date, weight, reps, sets, exercise_name`
projection of `getExerciseProgressData`. -/
structure ProgressRow where
  date : Nat
  weight : Option Rat
  reps : Option Int
  sets : Option Int
  exercise_name : String
deriving Repr, DecidableEq

/-- Projection of a workout entry to the columns selected by
`getExerciseProgressData`. -/
def toProgressRow (e : WorkoutEntry) : ProgressRow :=
  { date := e.date, weight := e.weight, reps := e.reps, sets := e.sets,
    exercise_name := e.exercise_name }

/-- `ORDER BY date ASC` on workout entries. -/
def dateLe (a b : WorkoutEntry) : Prop := a.date ≤ b.date

instance : DecidableRel dateLe := fun a b => Nat.decLe a.date b.date

instance : IsTotal WorkoutEntry dateLe := ⟨fun a b => Nat.le_total a.date b.date⟩

instance : IsTrans WorkoutEntry dateLe := ⟨fun _ _ _ h₁ h₂ => Nat.le_trans h₁ h₂⟩

/-- The WHERE clause of `getExerciseProgressData`: `user_id = $1 AND
lower(exercise_name) = lower($2) AND weight IS NOT NULL`. -/
def progressMatches (userId : Nat) (exerciseName : String)
    (e : WorkoutEntry) : Bool :=
  e.user_id == userId && lowerStr e.exercise_name == lowerStr exerciseName &&
    e.weight.isSome

/-- `workoutModel.getExerciseProgressData` (workoutModel.js lines 56-71):
the user's entries for the exercise (case-insensitive) with a non-null
weight, ordered by date ascending, projected to
(date, weight, reps, sets, exercise_name). -/
def getExerciseProgressData (userId : Nat) (exerciseName : String)
    (entries : List WorkoutEntry) : List ProgressRow :=
  ((entries.filter (progressMatches userId exerciseName)).insertionSort
    dateLe).map toProgressRow

/-- The remaining fields of a `POST /api/workouts` request body after the
`express-validator` rules of src/unnamed/part_001 have passed and the handler
has normalised the numeric fields. -/
structure WorkoutBody where
  date : Nat
  exercise_name : String
  sets : Int
  reps : Int
  weight : Option Rat
  duration : Option Int
deriving Repr, DecidableEq

/-- The two tables the workout routes touch. -/
structure WorkoutDb where
  entries : List WorkoutEntry
  prs : List PersonalRecord
deriving Repr, DecidableEq

/-- Responses of `POST /api/workouts` (src/unnamed/part_001 lines 35-66):
`201 {message, workoutEntry, personalRecordUpdate}` on success, or the
generic `500 {msg: 'Server error while logging workout.'}` when the handler's
`try` block throws. -/
inductive LogWorkoutResponse where
  | created (workoutEntry : WorkoutEntry)
      (personalRecordUpdate : Option PersonalRecord)
  | serverError (msg : String)
deriving Repr, DecidableEq

/-- HTTP status of a `POST /api/workouts` response. -/
def LogWorkoutResponse.statusCode : LogWorkoutResponse → Nat
  | created _ _ => 201
  | serverError _ => 500

/-- The `workout_entries` row the POST handler persists (the `RETURNING *`
result of `createWorkoutEntry`). -/
def mkRouteEntry (userId : Nat) (body : WorkoutBody)
    (freshEntryId now : Nat) : WorkoutEntry :=
  { id := freshEntryId, user_id := userId, date := body.date,
    exercise_name := body.exercise_name, sets := some body.sets,
    reps := some body.reps, weight := body.weight,
    duration := body.duration, created_at := now }

/-- The `router.post('/')` handler of src/unnamed/part_001 (after
validation): insert the entry (`createWorkoutEntry`), then run
`checkAndRecordPRs`; a throw from the entry insert is caught by the handler
and becomes the generic 500, while PR-step failures are swallowed inside
`checkAndRecordPRs` itself. -/
def logWorkoutRoute (f : DbFailures) (userId : Nat) (body : WorkoutBody)
    (db : WorkoutDb) (freshEntryId freshPrId now : Nat) :
    LogWorkoutResponse × WorkoutDb :=
  if f.insertEntryFails then
    (.serverError "Server error while logging workout.", db)
  else
    let e := mkRouteEntry userId body freshEntryId now
    let step := checkAndRecordPRsF f userId e db.prs freshPrId now
    (.created e step.1, ⟨db.entries ++ [e], step.2⟩)

/-- Responses of `GET /api/workouts/progress/:exerciseName`
(src/unnamed/part_001 lines 99-126). -/
inductive ProgressResponse where
  | badRequest (msg : String)
  | notFound (msg : String)
  | ok (rows : List ProgressRow)
deriving Repr, DecidableEq

/-- HTTP status of a progress response. -/
def ProgressResponse.statusCode : ProgressResponse → Nat
  | badRequest _ => 400
  | notFound _ => 404
  | ok _ => 200

/-- The `router.get('/progress/:exerciseName')` handler of
src/unnamed/part_001: reject a blank name with 400, fetch the progress rows
for the trimmed name, answer 404 when the result is empty and 200 with the
rows otherwise. -/
def progressRoute (userId : Nat) (exerciseName : String)
    (entries : List WorkoutEntry) : ProgressResponse :=
  if (trimStr exerciseName).data.isEmpty then
    .badRequest "Exercise name parameter is required."
  else
    let rows := getExerciseProgressData userId (trimStr exerciseName) entries
    if rows.isEmpty then
      .notFound ("No progress data found for exercise: " ++ exerciseName)
    else .ok rows

/-! ### Auth module: userModel.js, authRoutes.js, authenticateToken.js -/

/-- `userModel.findByUsername` (userModel.js): `SELECT ... FROM users WHERE
username = $1` — an exact, case-sensitive match. -/
def findByUsername (username : String) (users : List User) : Option User :=
  users.find? (fun u => u.username == username)

/-- One character of validator.js `escape()` (the sanitizer behind
`express-validator`'s `.escape()`): HTML-escape `&`, `"`, the apostrophe,
`<`, `>`, `/`, the backslash and the backtick. -/
def escapeChar (c : Char) : String :=
  if c = '&' then "&amp;"
  else if c = '"' then "&quot;"
  else if c = Char.ofNat 39 then "&#x27" ++ ";"
  else if c = '<' then "&lt;"
  else if c = '>' then "&gt;"
  else if c = '/' then "&#x2F;"
  else if c = '\\' then "&#x5C;"
  else if c = Char.ofNat 96 then "&#96;"
  else String.singleton c

/-- validator.js `escape()` applied to a whole string. -/
def escape (s : String) : String :=
  s.data.foldl (fun acc c => acc ++ escapeChar c) ""

/-- The value of `req.body.username` after the sanitizers `.trim().escape()`
of the signup/login validation chains have run: this is the value the
`isLength` check sees and the value the handlers store and look up. -/
def sanitizeUsername (username : String) : String := escape (trimStr username)

/-- Validation errors produced by `signupValidationRules` (authRoutes.js
lines 11-15): `username` must be non-empty (checked on the raw value) and,
after trim+escape, at least 3 characters; `password` must be at least 6
characters (checked on the raw value). -/
def signupErrors (username password : String) : List (String × String) :=
  (if username.data.isEmpty then [("username", "Username is required.")] else []) ++
  (if (sanitizeUsername username).data.length < 3 then
    [("username", "Username must be at least 3 characters long.")] else []) ++
  (if password.length < 6 then
    [("password", "Password must be at least 6 characters long.")] else [])

/-- Responses of `POST /api/auth/signup` (authRoutes.js lines 48-79):
a structured 400 with per-field messages (used both for validation errors
and for the duplicate-username conflict), or 201 with a signed token payload
and the public user fields. -/
inductive SignupResponse where
  | badRequest (errors : List (String × String))
  | createdUser (tokenUserId : Nat) (tokenUsername : String) (userId : Nat)
      (username : String)
deriving Repr, DecidableEq

/-- HTTP status of a signup response. -/
def SignupResponse.statusCode : SignupResponse → Nat
  | badRequest _ => 400
  | createdUser _ _ _ _ => 201

/-- The `router.post('/signup')` handler: run the validation rules, reject a
duplicate (sanitized) username with the conflict error, otherwise hash the
password, insert the user row and answer 201 with a token whose payload is
the new user's id and username.  `hash` abstracts `bcrypt.hash` with its
fixed cost factor. -/
def signup (hash : String → String) (username password : String)
    (users : List User) (freshId now : Nat) : SignupResponse × List User :=
  let errs := signupErrors username password
  if errs.isEmpty then
    let su := sanitizeUsername username
    match findByUsername su users with
    | some _ => (.badRequest [("username", "User already exists")], users)
    | none =>
      let u : User :=
        { id := freshId, username := su, password_hash := hash password,
          created_at := now }
      (.createdUser u.id u.username u.id u.username, users ++ [u])
  else (.badRequest errs, users)

/-- Validation errors produced by `loginValidationRules` (authRoutes.js
lines 17-20): both fields must be non-empty. -/
def loginErrors (username password : String) : List (String × String) :=
  (if username.data.isEmpty then [("username", "Username is required.")] else []) ++
  (if password.data.isEmpty then [("password", "Password is required.")] else [])

/-- Responses of `POST /api/auth/login` (authRoutes.js lines 84-114). -/
inductive LoginResponse where
  | badRequest (errors : List (String × String))
  | okUser (tokenUserId : Nat) (tokenUsername : String) (userId : Nat)
      (username : String)
deriving Repr, DecidableEq

/-- HTTP status of a login response. -/
def LoginResponse.statusCode : LoginResponse → Nat
  | badRequest _ => 400
  | okUser _ _ _ _ => 200

/-- The `router.post('/login')` handler: after validation, look up the
sanitized username; a missing user and a failed `bcrypt.compare` both
answer with the identical `400 {errors: [{general: 'Invalid credentials'}]}`
body, otherwise 200 with a token for the stored user.  `cmp` abstracts
`bcrypt.compare`. -/
def login (cmp : String → String → Bool) (username password : String)
    (users : List User) : LoginResponse :=
  let errs := loginErrors username password
  if errs.isEmpty then
    match findByUsername (sanitizeUsername username) users with
    | none => .badRequest [("general", "Invalid credentials")]
    | some u =>
      if cmp password u.password_hash then
        .okUser u.id u.username u.id u.username
      else .badRequest [("general", "Invalid credentials")]
  else .badRequest errs

/-- The token part of `req.headers['authorization']` as computed by
`authenticateToken` (src/unnamed/part_004): `authHeader &&
authHeader.split(' ')[1]`.  A missing header or a header without a second
word yields no token; the empty header short-circuits to the (non-null)
empty string, which is then handed to `jwt.verify`. -/
def extractToken (authHeader : Option String) : Option String :=
  match authHeader with
  | none => none
  | some h =>
    if h.data.isEmpty then some ""
    else ((splitOnChar ' ' h.data).map String.mk)[1]?

/-- Outcome of the `authenticateToken` middleware gate. -/
inductive GateResult where
  | unauthorized
  | forbidden
  | proceed (userId : Nat) (username : String)
deriving Repr, DecidableEq

/-- HTTP status written by the middleware itself (`401` for a missing token,
`403` for a failed verification, none when it calls `next()`). -/
def gateStatus : GateResult → Option Nat
  | .unauthorized => some 401
  | .forbidden => some 403
  | .proceed _ _ => none

/-- The `authenticateToken` middleware (src/unnamed/part_004 lines 10-31):
401 when no token is present, 403 when `jwt.verify` reports an error
(invalid signature, expired, malformed), otherwise the decoded
`{id, username}` payload is attached for the downstream handler.  `verify`
abstracts `jwt.verify` with the server secret: `none` models the error
callback. -/
def authenticateToken (verify : String → Option (Nat × String))
    (authHeader : Option String) : GateResult :=
  match extractToken authHeader with
  | none => .unauthorized
  | some t =>
    match verify t with
    | none => .forbidden
    | some p => .proceed p.1 p.2

/-- Outcome of a request to a route mounted behind the middleware. -/
inductive GateOutcome (α : Type) where
  | unauthorized : GateOutcome α
  | forbidden : GateOutcome α
  | handled (result : α) : GateOutcome α
deriving Repr, DecidableEq

/-- `router.use(authenticateToken)` of workoutRoutes.js: every workout
route first runs the gate, and the route handler (which receives the decoded
`req.user`) runs only when the gate proceeds. -/
def runProtected {α : Type} (verify : String → Option (Nat × String))
    (authHeader : Option String) (handler : Nat → String → α) :
    GateOutcome α :=
  match authenticateToken verify authHeader with
  | .unauthorized => .unauthorized
  | .forbidden => .forbidden
  | .proceed uid uname => .handled (handler uid uname)

/-- `GET /api/workouts/progress/:exerciseName` as mounted behind the gate. -/
def progressEndpoint (verify : String → Option (Nat × String))
    (authHeader : Option String) (exerciseName : String)
    (entries : List WorkoutEntry) : GateOutcome ProgressResponse :=
  runProtected verify authHeader
    (fun uid _ => progressRoute uid exerciseName entries)

/-- `GET /api/workouts/prs` as mounted behind the gate. -/
def prsEndpoint (verify : String → Option (Nat × String))
    (authHeader : Option String) (prs : List PersonalRecord) :
    GateOutcome (List PersonalRecord) :=
  runProtected verify authHeader (fun uid _ => getCurrentPersonalRecords uid prs)

/-! ### Logging a sequence of workouts for one (user, exercise) -/

/-- The happy path: no database call throws. -/
def noDbFailures : DbFailures := ⟨false, false, false⟩

/-- The workout entry the `POST /api/workouts` handler persists for a log of
exercise `name` on date `d` with weight `w`, when `n` is the fresh row id
(also used as the insertion timestamp; sets/reps fixed as 3x5). -/
def mkLogEntry (u : Nat) (name : String) (d : Nat) (w : Rat) (n : Nat) :
    WorkoutEntry :=
  { id := n, user_id := u, date := d, exercise_name := name, sets := some 3,
    reps := some 5, weight := some w, duration := none, created_at := n }

/-- Log a sequence of (date, weight) workouts for user `u` and exercise
`name` through the `POST /api/workouts` handler, numbering fresh rows from
`n`. -/
def logSeq (u : Nat) (name : String) :
    List (Nat × Rat) → WorkoutDb → Nat → WorkoutDb
  | [], db, _ => db
  | (d, w) :: rest, db, n =>
    logSeq u name rest
      (logWorkoutRoute noDbFailures u
        ⟨d, name, 3, 5, some w, none⟩ db n n n).2 (n + 1)

/-- Spec-side running best: starting from a best weight `M` achieved on date
`D`, fold the remaining (date, weight) logs, updating only on a strictly
greater weight. -/
def specMaxFold : List (Nat × Rat) → Rat → Nat → Rat × Nat
  | [], M, D => (M, D)
  | (d, w) :: rest, M, D =>
    if M < w then specMaxFold rest w d else specMaxFold rest M D

/-- Spec-side maximum of the logged weights, starting from `M`. -/
def maxFrom (M : Rat) (l : List (Nat × Rat)) : Rat :=
  l.foldl (fun m p => max m p.2) M

/-- A personal-record row as produced by logging for user `u` and exercise
`name`: it belongs to `u`, carries the exact exercise name and has record
type `max_weight`. -/
def GoodPR (u : Nat) (name : String) (r : PersonalRecord) : Prop :=
  r.user_id = u ∧ r.exercise_name = name ∧ r.record_type = "max_weight"

/-- Strictly increasing record values. -/
def ValueLt (a b : PersonalRecord) : Prop := a.value < b.value

/-- Invariant of the personal-record store while logging one (user,
exercise): every row was produced by this sequence, values strictly increase
in insertion order, and the last row holds the running best `M` achieved on
date `D`. -/
def PrState (u : Nat) (name : String) (prs : List PersonalRecord) (M : Rat)
    (D : Nat) : Prop :=
  (∀ r ∈ prs, GoodPR u name r) ∧ List.Chain' ValueLt prs ∧
    ∃ rl, prs.getLast? = some rl ∧ rl.value = M ∧ rl.date = D

/-- The personal-record row inserted when logging exercise `name` on date
`d` with weight `w` and fresh id `n`. -/
def mkLogPR (u : Nat) (name : String) (d : Nat) (w : Rat) (n : Nat) :
    PersonalRecord :=
  { id := n, user_id := u, exercise_name := name, record_type := "max_weight",
    value := w, date := d, workout_entry_id := some n, created_at := n }

/-! ### List infrastructure -/

theorem mem_of_getLast? {α : Type} {l : List α} {a : α}
    (h : l.getLast? = some a) : a ∈ l := by
  obtain ⟨ys, rfl⟩ := List.getLast?_eq_some_iff.mp h
  simp

theorem getLast?_ne_none {α : Type} {l : List α} {a : α}
    (h : l.getLast? = some a) : l ≠ [] := by
  intro hnil
  subst hnil
  simp at h

/-- `pickBest` of a list with strictly increasing values is its last
element, which bounds every value in the list. -/
theorem pickBest_chain :
    ∀ (l : List PersonalRecord), List.Chain' ValueLt l →
      pickBest l = l.getLast? ∧
        ∀ x ∈ l, ∀ b, l.getLast? = some b → x.value ≤ b.value
  | [], _ => ⟨rfl, by simp⟩
  | [r], _ => by
    refine ⟨rfl, ?_⟩
    intro x hx b hb
    simp at hx hb
    subst hx
    subst hb
    exact le_refl _
  | r :: s :: t, h => by
    obtain ⟨hrs, ht⟩ := List.chain'_cons.mp h
    obtain ⟨pb, bound⟩ := pickBest_chain (s :: t) ht
    obtain ⟨b, hb⟩ : ∃ b, (s :: t).getLast? = some b := by
      cases hgl : (s :: t).getLast? with
      | none => simp at hgl
      | some b => exact ⟨b, rfl⟩
    have hsb : s.value ≤ b.value := bound s (by simp) b hb
    have hrb : r.value < b.value := lt_of_lt_of_le hrs hsb
    have hbetter : betterRec b r = true := by
      simp [betterRec, hrb]
    constructor
    · rw [pickBest, pb, hb, List.getLast?_cons_cons, hb]
      dsimp only
      rw [hbetter]
      simp
    · intro x hx c hc
      rw [List.getLast?_cons_cons, hb] at hc
      cases hc
      rcases List.mem_cons.mp hx with hxr | hxst
      · subst hxr
        exact le_of_lt hrb
      · exact bound x hxst b hb

theorem pickBest_cons_isSome (x : PersonalRecord) (xs : List PersonalRecord) :
    (pickBest (x :: xs)).isSome = true := by
  rw [pickBest]
  cases pickBest xs with
  | none => rfl
  | some b =>
    by_cases h : betterRec b x = true
    · simp [h]
    · simp [h]

theorem pickBest_mem :
    ∀ (l : List PersonalRecord) (r : PersonalRecord),
      pickBest l = some r → r ∈ l
  | [], r, h => by simp [pickBest] at h
  | x :: xs, r, h => by
    rw [pickBest] at h
    cases hxs : pickBest xs with
    | none =>
      rw [hxs] at h
      cases h
      simp
    | some b =>
      rw [hxs] at h
      dsimp only at h
      by_cases hbr : betterRec b x = true
      · rw [if_pos hbr] at h
        cases h
        exact List.mem_cons_of_mem _ (pickBest_mem xs r hxs)
      · rw [if_neg hbr] at h
        cases h
        simp

/-- The row `pickBest` returns is maximal for value, with ties on value
bounded by its date. -/
theorem pickBest_maximal :
    ∀ (l : List PersonalRecord) (b : PersonalRecord), pickBest l = some b →
      ∀ x ∈ l, x.value < b.value ∨ (x.value = b.value ∧ x.date ≤ b.date)
  | [], b, h => by simp [pickBest] at h
  | r :: rs, b, h => by
    rw [pickBest] at h
    intro x hx
    cases hrs : pickBest rs with
    | none =>
      rw [hrs] at h
      cases h
      rcases List.mem_cons.mp hx with hxr | hxs
      · subst hxr
        exact Or.inr ⟨rfl, le_refl _⟩
      · cases rs with
        | nil => simp at hxs
        | cons y ys =>
          have := pickBest_cons_isSome y ys
          rw [hrs] at this
          simp at this
    | some c =>
      rw [hrs] at h
      dsimp only at h
      by_cases hcr : betterRec c r = true
      · rw [if_pos hcr] at h
        cases h
        rcases List.mem_cons.mp hx with hxr | hxs
        · subst hxr
          simp only [betterRec, Bool.or_eq_true, Bool.and_eq_true,
            decide_eq_true_eq] at hcr
          rcases hcr with hlt | ⟨heq, hdt⟩
          · exact Or.inl hlt
          · exact Or.inr ⟨heq.symm, le_of_lt hdt⟩
        · exact pickBest_maximal rs b hrs x hxs
      · rw [if_neg hcr] at h
        cases h
        rcases List.mem_cons.mp hx with hxr | hxs
        · subst hxr
          exact Or.inr ⟨rfl, le_refl _⟩
        · have hxc := pickBest_maximal rs c hrs x hxs
          simp only [betterRec, Bool.or_eq_true, Bool.and_eq_true,
            decide_eq_true_eq, not_or, not_and, not_lt] at hcr
          obtain ⟨hvc, hdc⟩ := hcr
          rcases hxc with hltc | ⟨heqc, hdtc⟩
          · exact Or.inl (lt_of_lt_of_le hltc hvc)
          · rcases lt_or_eq_of_le hvc with hlt | heq
            · exact Or.inl (lt_of_le_of_lt (le_of_eq heqc) hlt)
            · exact Or.inr ⟨heqc.trans heq, le_trans hdtc (hdc heq)⟩

theorem filter_prMatches_of_good {u : Nat} {name : String}
    {prs : List PersonalRecord} (h : ∀ r ∈ prs, GoodPR u name r) :
    prs.filter (prMatches u name "max_weight") = prs := by
  apply List.filter_eq_self.mpr
  intro r hr
  obtain ⟨h1, h2, h3⟩ := h r hr
  simp [prMatches, h1, h2, h3]

theorem filter_user_of_good {u : Nat} {name : String}
    {prs : List PersonalRecord} (h : ∀ r ∈ prs, GoodPR u name r) :
    prs.filter (fun r => r.user_id == u) = prs := by
  apply List.filter_eq_self.mpr
  intro r hr
  obtain ⟨h1, -, -⟩ := h r hr
  simp [h1]

theorem filter_key_of_good {u : Nat} {name : String}
    {prs : List PersonalRecord} (h : ∀ r ∈ prs, GoodPR u name r) :
    prs.filter
      (fun r => r.exercise_name == name && r.record_type == "max_weight") =
      prs := by
  apply List.filter_eq_self.mpr
  intro r hr
  obtain ⟨-, h2, h3⟩ := h r hr
  simp [h2, h3]

theorem dedup_const {α : Type} [DecidableEq α] (k : α) :
    ∀ (l : List α), l ≠ [] → (∀ x ∈ l, x = k) → l.dedup = [k]
  | [], h, _ => absurd rfl h
  | [x], _, hall => by
    rw [hall x (by simp)]
    simp
  | x :: y :: t, _, hall => by
    have hx : x = k := hall x (by simp)
    have hy : y = k := hall y (by simp)
    have hmem : x ∈ y :: t := by
      rw [hx, ← hy]
      exact List.mem_cons_self _ _
    rw [List.dedup_cons_of_mem hmem]
    exact dedup_const k (y :: t) (by simp)
      (fun z hz => hall z (List.mem_cons_of_mem _ hz))

/-- Under the logging invariant, `getCurrentPersonalRecords` returns
exactly the last inserted row. -/
theorem getCurrentPersonalRecords_of_state {u : Nat} {name : String}
    {prs : List PersonalRecord} {M : Rat} {D : Nat}
    (hS : PrState u name prs M D) :
    ∃ rl, getCurrentPersonalRecords u prs = [rl] ∧ prs.getLast? = some rl := by
  obtain ⟨hgood, hchain, rl, hlast, hval, hdate⟩ := hS
  have hne : prs ≠ [] := getLast?_ne_none hlast
  have huser : prs.filter (fun r => r.user_id == u) = prs :=
    filter_user_of_good hgood
  have hkeys : (prs.map (fun r => (r.exercise_name, r.record_type))).dedup =
      [(name, "max_weight")] := by
    apply dedup_const
    · simp [hne]
    · intro x hx
      obtain ⟨r, hr, rfl⟩ := List.mem_map.mp hx
      obtain ⟨-, h2, h3⟩ := hgood r hr
      simp [h2, h3]
  have hkey : prs.filter
      (fun r => r.exercise_name == name && r.record_type == "max_weight") =
      prs := filter_key_of_good hgood
  have hpb : pickBest prs = some rl := by
    rw [(pickBest_chain prs hchain).1, hlast]
  refine ⟨rl, ?_, hlast⟩
  simp only [getCurrentPersonalRecords]
  rw [huser, hkeys]
  simp only [List.filterMap_cons, List.filterMap_nil]
  rw [hkey, hpb]

theorem checkAndRecordPRs_insert {u : Nat} {name : String}
    {prs : List PersonalRecord} {M : Rat} {D : Nat}
    (hS : PrState u name prs M D) {w : Rat} (hw : 0 < w) (hMw : M < w)
    (d n : Nat) :
    checkAndRecordPRs u (mkLogEntry u name d w n) prs n n =
      (some (mkLogPR u name d w n), prs ++ [mkLogPR u name d w n]) ∧
    PrState u name (prs ++ [mkLogPR u name d w n]) w d := by
  obtain ⟨hgood, hchain, rl, hlast, hval, hdate⟩ := hS
  have hlookup :
      getLatestPersonalRecordForExercise u name "max_weight" prs = some rl := by
    unfold getLatestPersonalRecordForExercise
    rw [filter_prMatches_of_good hgood, (pickBest_chain prs hchain).1, hlast]
  have hcond : rl.value < w := by rw [hval]; exact hMw
  constructor
  · simp [checkAndRecordPRs, checkAndRecordPRsF, mkLogEntry, mkLogPR,
      hlookup, not_le.mpr hw, hcond]
  · refine ⟨?_, ?_, mkLogPR u name d w n, List.getLast?_concat _, rfl, rfl⟩
    · intro r hr
      rcases List.mem_append.mp hr with h | h
      · exact hgood r h
      · simp at h
        subst h
        exact ⟨rfl, rfl, rfl⟩
    · rw [List.chain'_append]
      refine ⟨hchain, List.chain'_singleton _, ?_⟩
      intro x hx y hy
      rw [hlast] at hx
      simp at hx hy
      subst hx
      subst hy
      show rl.value < (mkLogPR u name d w n).value
      rw [hval]
      exact hMw

theorem checkAndRecordPRs_skip {u : Nat} {name : String}
    {prs : List PersonalRecord} {M : Rat} {D : Nat}
    (hS : PrState u name prs M D) {w : Rat} (hw : 0 < w) (hMw : ¬M < w)
    (d n : Nat) :
    checkAndRecordPRs u (mkLogEntry u name d w n) prs n n = (none, prs) := by
  obtain ⟨hgood, hchain, rl, hlast, hval, hdate⟩ := hS
  have hlookup :
      getLatestPersonalRecordForExercise u name "max_weight" prs = some rl := by
    unfold getLatestPersonalRecordForExercise
    rw [filter_prMatches_of_good hgood, (pickBest_chain prs hchain).1, hlast]
  have hcond : ¬rl.value < w := by rw [hval]; exact hMw
  simp [checkAndRecordPRs, checkAndRecordPRsF, mkLogEntry, hlookup,
    not_le.mpr hw, hcond]

theorem checkAndRecordPRs_start (u : Nat) (name : String) {w : Rat}
    (hw : 0 < w) (d n : Nat) :
    checkAndRecordPRs u (mkLogEntry u name d w n) [] n n =
      (some (mkLogPR u name d w n), [mkLogPR u name d w n]) ∧
    PrState u name [mkLogPR u name d w n] w d := by
  constructor
  · simp [checkAndRecordPRs, checkAndRecordPRsF, mkLogEntry, mkLogPR,
      getLatestPersonalRecordForExercise, pickBest, not_le.mpr hw]
  · exact ⟨by
      intro r hr
      simp at hr
      subst hr
      exact ⟨rfl, rfl, rfl⟩,
      List.chain'_singleton _, mkLogPR u name d w n, rfl, rfl, rfl⟩

theorem logSeq_cons (u : Nat) (name : String) (d : Nat) (w : Rat)
    (rest : List (Nat × Rat)) (db : WorkoutDb) (n : Nat) :
    logSeq u name ((d, w) :: rest) db n =
      logSeq u name rest
        ⟨db.entries ++ [mkLogEntry u name d w n],
         (checkAndRecordPRs u (mkLogEntry u name d w n) db.prs n n).2⟩
        (n + 1) := rfl

theorem maxFrom_cons (M : Rat) (d : Nat) (w : Rat) (t : List (Nat × Rat)) :
    maxFrom M ((d, w) :: t) = maxFrom (max M w) t := rfl

theorem le_maxFrom : ∀ (l : List (Nat × Rat)) (M : Rat), M ≤ maxFrom M l
  | [], M => le_refl M
  | (d, w) :: t, M => by
    rw [maxFrom_cons]
    exact le_trans (le_max_left M w) (le_maxFrom t (max M w))

theorem specMaxFold_stationary :
    ∀ (l : List (Nat × Rat)) (M : Rat) (D : Nat),
      maxFrom M l = M → specMaxFold l M D = (M, D)
  | [], _, _, _ => rfl
  | (d, w) :: t, M, D, h => by
    rw [maxFrom_cons] at h
    have h1 : max M w ≤ M := by
      have h2 := le_maxFrom t (max M w)
      rw [h] at h2
      exact h2
    have hw : w ≤ M := le_trans (le_max_right M w) h1
    have hmax : max M w = M := max_eq_left hw
    rw [specMaxFold, if_neg (not_lt.mpr hw)]
    apply specMaxFold_stationary t M D
    rw [hmax] at h
    exact h

/-- When the logged weights strictly exceed the starting best, the final
best of `specMaxFold` is the weight and date of the first log achieving the
maximum. -/
theorem specMaxFold_find :
    ∀ (l : List (Nat × Rat)) (M : Rat) (D : Nat), M < maxFrom M l →
      l.find? (fun p => decide (p.2 = maxFrom M l)) =
        some ((specMaxFold l M D).2, maxFrom M l)
  | [], M, _, h => absurd h (lt_irrefl M)
  | (d, w) :: t, M, D, h => by
    simp only [maxFrom_cons] at h ⊢
    by_cases hMw : M < w
    · have hmax : max M w = w := max_eq_right (le_of_lt hMw)
      simp only [hmax] at h ⊢
      have hwt : w ≤ maxFrom w t := le_maxFrom t w
      rcases eq_or_lt_of_le hwt with heq | hlt
      · rw [List.find?_cons_of_pos _ (by simp [← heq])]
        rw [specMaxFold, if_pos hMw,
          specMaxFold_stationary t w d heq.symm, ← heq]
      · rw [List.find?_cons_of_neg _ (by simp [ne_of_lt hlt])]
        rw [specMaxFold, if_pos hMw]
        exact specMaxFold_find t w d hlt
    · have hwM : w ≤ M := not_lt.mp hMw
      have hmax : max M w = M := max_eq_left hwM
      simp only [hmax] at h ⊢
      have hne : w ≠ maxFrom M t := ne_of_lt (lt_of_le_of_lt hwM h)
      rw [List.find?_cons_of_neg _ (by simp [hne])]
      rw [specMaxFold, if_neg hMw]
      exact specMaxFold_find t M D h

/-- The first projection of `specMaxFold` is the maximum of the logged
weights. -/
theorem specMaxFold_fst :
    ∀ (l : List (Nat × Rat)) (M : Rat) (D : Nat),
      (specMaxFold l M D).1 = maxFrom M l
  | [], _, _ => rfl
  | (d, w) :: t, M, D => by
    rw [maxFrom_cons]
    by_cases hMw : M < w
    · rw [specMaxFold, if_pos hMw, max_eq_right (le_of_lt hMw)]
      exact specMaxFold_fst t w d
    · rw [specMaxFold, if_neg hMw, max_eq_left (not_lt.mp hMw)]
      exact specMaxFold_fst t M D

/-- Main induction: logging a positive-weight sequence through the POST
handler preserves the invariant, tracking `specMaxFold`. -/
theorem logSeq_state (u : Nat) (name : String) :
    ∀ (items : List (Nat × Rat)) (db : WorkoutDb) (n : Nat) (M : Rat)
      (D : Nat), PrState u name db.prs M D → (∀ p ∈ items, 0 < p.2) →
      PrState u name (logSeq u name items db n).prs
        (specMaxFold items M D).1 (specMaxFold items M D).2
  | [], db, n, M, D, hS, _ => hS
  | (d, w) :: rest, db, n, M, D, hS, hpos => by
    have hw : 0 < w := hpos (d, w) (by simp)
    have hrest : ∀ p ∈ rest, 0 < p.2 :=
      fun p hp => hpos p (List.mem_cons_of_mem _ hp)
    rw [logSeq_cons]
    by_cases hMw : M < w
    · obtain ⟨heq, hS'⟩ := checkAndRecordPRs_insert hS hw hMw d n
      rw [specMaxFold, if_pos hMw, heq]
      exact logSeq_state u name rest
        ⟨db.entries ++ [mkLogEntry u name d w n],
         db.prs ++ [mkLogPR u name d w n]⟩ (n + 1) w d hS' hrest
    · have heq := checkAndRecordPRs_skip hS hw hMw d n
      rw [specMaxFold, if_neg hMw, heq]
      exact logSeq_state u name rest
        ⟨db.entries ++ [mkLogEntry u name d w n], db.prs⟩ (n + 1) M D hS
        hrest

/-- Behaviour of `GetCurrentRecords` after a whole log sequence, stated
against the spec-side best-so-far recursion. -/
theorem logSeq_current_record (u : Nat) (name : String) (d1 : Nat) (w1 : Rat)
    (rest : List (Nat × Rat)) (hw1 : 0 < w1) (hpos : ∀ p ∈ rest, 0 < p.2) :
    ∃ r, getCurrentPersonalRecords u
        (logSeq u name ((d1, w1) :: rest) ⟨[], []⟩ 1).prs = [r] ∧
      GoodPR u name r ∧ r.value = (specMaxFold rest w1 d1).1 ∧
      r.date = (specMaxFold rest w1 d1).2 := by
  obtain ⟨hstart, hS0⟩ := checkAndRecordPRs_start u name hw1 d1 1
  have hrun : logSeq u name ((d1, w1) :: rest) ⟨[], []⟩ 1 =
      logSeq u name rest
        ⟨[mkLogEntry u name d1 w1 1], [mkLogPR u name d1 w1 1]⟩ 2 := by
    rw [logSeq_cons]
    dsimp only
    rw [hstart]
    rfl
  have hfinal := logSeq_state u name rest
    ⟨[mkLogEntry u name d1 w1 1], [mkLogPR u name d1 w1 1]⟩ 2 w1 d1 hS0 hpos
  obtain ⟨rl, hcur, hlast⟩ := getCurrentPersonalRecords_of_state hfinal
  obtain ⟨hgoodAll, -, rl', hlast', hval', hdate'⟩ := hfinal
  rw [hlast] at hlast'
  cases hlast'
  refine ⟨rl, ?_, hgoodAll rl (mem_of_getLast? hlast), hval', hdate'⟩
  rw [hrun]
  exact hcur

/-! ### Claim theorems -/

/-- Claim C1: for every LogWorkout call, PR detection is evaluated only when
the entry's weight is present and positive, with record type fixed to
`max_weight`; the current best record for (user, exercise) is looked up
case-insensitively on the exercise name, and a new `PersonalRecord` row
referencing the workout entry is inserted if and only if no current record
exists or the new weight is strictly greater than the current best value;
an equal (or smaller) weight leaves the store unchanged and yields a `null`
`personalRecordUpdate`. -/
theorem claim_C1_pr_detection (u fid now : Nat) (e : WorkoutEntry)
    (prs : List PersonalRecord) :
    ((e.weight = none ∨ ∃ w, e.weight = some w ∧ w ≤ 0) →
      checkAndRecordPRs u e prs fid now = (none, prs)) ∧
    (∀ w, e.weight = some w → 0 < w →
      ((getLatestPersonalRecordForExercise u e.exercise_name "max_weight"
          prs = none ∨
        (∃ c, getLatestPersonalRecordForExercise u e.exercise_name
          "max_weight" prs = some c ∧ c.value < w)) →
        ∃ pr, checkAndRecordPRs u e prs fid now = (some pr, prs ++ [pr]) ∧
          pr.user_id = u ∧ pr.exercise_name = e.exercise_name ∧
          pr.record_type = "max_weight" ∧ pr.value = w ∧ pr.date = e.date ∧
          pr.workout_entry_id = some e.id) ∧
      (∀ c, getLatestPersonalRecordForExercise u e.exercise_name "max_weight"
          prs = some c → w ≤ c.value →
        checkAndRecordPRs u e prs fid now = (none, prs))) ∧
    (∀ n₁ n₂ t, lowerStr n₁ = lowerStr n₂ →
      getLatestPersonalRecordForExercise u n₁ t prs =
        getLatestPersonalRecordForExercise u n₂ t prs) ∧
    (∀ (body : WorkoutBody) (db : WorkoutDb) (pid : Nat),
      (logWorkoutRoute noDbFailures u body db fid pid now).1 =
        .created (mkRouteEntry u body fid now)
          (checkAndRecordPRs u (mkRouteEntry u body fid now)
            db.prs pid now).1) := by
  refine ⟨?_, ?_, ?_, ?_⟩
  · rintro (hw | ⟨w, hw, hle⟩)
    · simp [checkAndRecordPRs, checkAndRecordPRsF, hw]
    · simp [checkAndRecordPRs, checkAndRecordPRsF, hw, hle]
  · intro w hw hpos
    constructor
    · rintro (hcur | ⟨c, hcur, hlt⟩)
      · refine ⟨⟨fid, u, e.exercise_name, "max_weight", w, e.date,
          some e.id, now⟩, ?_, rfl, rfl, rfl, rfl, rfl, rfl⟩
        simp [checkAndRecordPRs, checkAndRecordPRsF, hw, not_le.mpr hpos,
          hcur]
      · refine ⟨⟨fid, u, e.exercise_name, "max_weight", w, e.date,
          some e.id, now⟩, ?_, rfl, rfl, rfl, rfl, rfl, rfl⟩
        simp [checkAndRecordPRs, checkAndRecordPRsF, hw, not_le.mpr hpos,
          hcur, hlt]
    · intro c hcur hle
      simp [checkAndRecordPRs, checkAndRecordPRsF, hw, not_le.mpr hpos,
        hcur, not_lt.mpr hle]
  · intro n₁ n₂ t hlow
    unfold getLatestPersonalRecordForExercise
    congr 1
    apply List.filter_congr
    intro r hr
    simp [prMatches, hlow]
  · intro body db pid
    rfl

/-- Witness for C1: logging a first positive-weight workout for an exercise
with no prior record inserts a new personal record referencing the entry. -/
theorem claim_C1_witness :
    ∃ pr, checkAndRecordPRs 9 (mkLogEntry 9 "Deadlift" 4 100 6) [] 6 6 =
        (some pr, [] ++ [pr]) ∧
      pr.user_id = 9 ∧ pr.exercise_name =
        (mkLogEntry 9 "Deadlift" 4 100 6).exercise_name ∧
      pr.record_type = "max_weight" ∧ pr.value = 100 ∧
      pr.date = (mkLogEntry 9 "Deadlift" 4 100 6).date ∧
      pr.workout_entry_id = some (mkLogEntry 9 "Deadlift" 4 100 6).id :=
  ((claim_C1_pr_detection 9 6 6 (mkLogEntry 9 "Deadlift" 4 100 6) []).2.1
    100 rfl (by decide)).1 (Or.inl rfl)

/-- Claim C10: PR detection looks up the current best record
case-insensitively but stores the new row with the workout entry's original
casing, while `getCurrentPersonalRecords` groups case-sensitively: a user who
logs the same exercise under two casings with increasing weights ends up with
two separate "current" max_weight rows for that one exercise. -/
theorem claim_C10_casing :
    lowerStr "Bench Press" = lowerStr "bench press" ∧
    ((checkAndRecordPRs 3 (mkLogEntry 3 "bench press" 2 85 2)
        (checkAndRecordPRs 3 (mkLogEntry 3 "Bench Press" 1 80 1) [] 1 1).2
        2 2).1).isSome = true ∧
    ((checkAndRecordPRs 3 (mkLogEntry 3 "bench press" 2 85 2)
        (checkAndRecordPRs 3 (mkLogEntry 3 "Bench Press" 1 80 1) [] 1 1).2
        2 2).2).map (fun r => (r.exercise_name, r.value)) =
      [("Bench Press", (80 : Rat)), ("bench press", 85)] ∧
    (getCurrentPersonalRecords 3
        ((checkAndRecordPRs 3 (mkLogEntry 3 "bench press" 2 85 2)
          (checkAndRecordPRs 3 (mkLogEntry 3 "Bench Press" 1 80 1) [] 1 1).2
          2 2).2)).map (fun r => (r.exercise_name, r.record_type, r.value)) =
      [("Bench Press", "max_weight", (80 : Rat)),
       ("bench press", "max_weight", 85)] := by
  refine ⟨by decide, by decide, by decide, by decide⟩

/-- Counterexample to claim C2 as stated: logging weights 80 (date 1) then
80 (date 2) for one exercise leaves a single current record dated 1 — the
first entry achieving the maximum — while the latest entry achieving the
maximum is dated 2.  The record's date is not the date of the latest entry
achieving the maximum. -/
theorem claim_C2_counterexample :
    (getCurrentPersonalRecords 7
        (logSeq 7 "Bench Press" [(1, 80), (2, 80)] ⟨[], []⟩ 1).prs).map
        (fun r => (r.value, r.date)) = [((80 : Rat), 1)] ∧
    ([((1 : Nat), (80 : Rat)), (2, 80)].filter
        (fun p => decide (p.2 = 80))).getLast? = some (2, 80) ∧
    (1 : Nat) ≠ 2 := by
  refine ⟨by decide, by decide, by decide⟩

/-- Claim C2 (amended): for any sequence of workouts logged for one (user,
exercise) with positive weights, `getCurrentPersonalRecords` afterwards
returns exactly one `max_weight` record for that exercise whose value equals
the maximum of the logged weights and whose date equals the date of the
FIRST logged entry achieving that maximum (an equal weight on a later date
does not update the record). -/
theorem claim_C2_current_record (u : Nat) (name : String) (d1 : Nat)
    (w1 : Rat) (rest : List (Nat × Rat)) (hw1 : 0 < w1)
    (hpos : ∀ p ∈ rest, 0 < p.2) :
    ∃ r, getCurrentPersonalRecords u
        (logSeq u name ((d1, w1) :: rest) ⟨[], []⟩ 1).prs = [r] ∧
      r.record_type = "max_weight" ∧ r.exercise_name = name ∧
      r.value = maxFrom w1 rest ∧
      ((d1, w1) :: rest).find? (fun p => decide (p.2 = maxFrom w1 rest)) =
        some (r.date, r.value) := by
  obtain ⟨r, hcur, hgood, hval, hdate⟩ :=
    logSeq_current_record u name d1 w1 rest hw1 hpos
  have hvmax : r.value = maxFrom w1 rest := by
    rw [hval, specMaxFold_fst]
  refine ⟨r, hcur, hgood.2.2, hgood.2.1, hvmax, ?_⟩
  rcases eq_or_lt_of_le (le_maxFrom rest w1) with heq | hlt
  · rw [List.find?_cons_of_pos _ (by simp [← heq])]
    have hstat := specMaxFold_stationary rest w1 d1 heq.symm
    rw [hstat] at hdate
    rw [hdate, hvmax, ← heq]
  · rw [List.find?_cons_of_neg _ (by simp [ne_of_lt hlt])]
    rw [specMaxFold_find rest w1 d1 hlt, hdate, hvmax]

/-- Witness for C2 (amended): logging 80 then 85 yields one current record
of value 85 dated with the 85-entry. -/
theorem claim_C2_witness :
    ∃ r, getCurrentPersonalRecords 1
        (logSeq 1 "Bench Press" [(1, 80), (2, 85)] ⟨[], []⟩ 1).prs = [r] ∧
      r.record_type = "max_weight" ∧ r.exercise_name = "Bench Press" ∧
      r.value = maxFrom 80 [(2, 85)] ∧
      [((1 : Nat), (80 : Rat)), (2, 85)].find?
          (fun p => decide (p.2 = maxFrom 80 [(2, 85)])) =
        some (r.date, r.value) :=
  claim_C2_current_record 1 "Bench Press" 1 80 [(2, 85)] (by decide)
    (by decide)

/-- A failing personal-record lookup or insert is swallowed by
`checkAndRecordPRs`: it returns `null` and leaves the record store
untouched. -/
theorem checkAndRecordPRsF_fail (f : DbFailures)
    (hf : f.prLookupFails = true ∨ f.prInsertFails = true) (u : Nat)
    (e : WorkoutEntry) (prs : List PersonalRecord) (fid now : Nat) :
    checkAndRecordPRsF f u e prs fid now = (none, prs) := by
  unfold checkAndRecordPRsF
  cases hw : e.weight with
  | none => rfl
  | some w =>
    dsimp only
    by_cases hle : w ≤ 0
    · rw [if_pos hle]
    · rw [if_neg hle]
      rcases hf with hf | hf
      · rw [hf]
        simp
      · cases hlk : f.prLookupFails with
        | true => simp
        | false =>
          simp only [Bool.false_eq_true, if_false, hf, if_true]
          cases getLatestPersonalRecordForExercise u e.exercise_name
              "max_weight" prs with
          | none => rfl
          | some cur =>
            dsimp only
            by_cases hv : cur.value < w
            · rw [if_pos hv]
            · rw [if_neg hv]

/-- Claim C3 (amended): if inserting the workout entry fails, the caller
receives the generic 500 server error and the store is unchanged; if the
entry insert succeeds, the caller receives 201 with the persisted entry even
when the personal-record lookup or insert fails — those failures are logged
and swallowed inside `checkAndRecordPRs`, leaving `personalRecordUpdate`
null and the record store unchanged. -/
theorem claim_C3_db_error_handling (f : DbFailures) (u : Nat)
    (body : WorkoutBody) (db : WorkoutDb) (fid pid now : Nat) :
    (f.insertEntryFails = true →
      logWorkoutRoute f u body db fid pid now =
        (.serverError "Server error while logging workout.", db)) ∧
    (f.insertEntryFails = false →
      ∃ e pru prs', logWorkoutRoute f u body db fid pid now =
          (.created e pru, ⟨db.entries ++ [e], prs'⟩) ∧
        (LogWorkoutResponse.created e pru).statusCode = 201 ∧
        ((f.prLookupFails = true ∨ f.prInsertFails = true) →
          pru = none ∧ prs' = db.prs)) := by
  constructor
  · intro hins
    unfold logWorkoutRoute
    rw [hins]
    simp
  · intro hins
    refine ⟨mkRouteEntry u body fid now,
      (checkAndRecordPRsF f u (mkRouteEntry u body fid now)
        db.prs pid now).1,
      (checkAndRecordPRsF f u (mkRouteEntry u body fid now)
        db.prs pid now).2, ?_, rfl, ?_⟩
    · unfold logWorkoutRoute
      rw [hins]
      simp
    · intro hf
      rw [checkAndRecordPRsF_fail f hf]
      exact ⟨rfl, rfl⟩

/-- Counterexample to claim C3 as stated: with the personal-record insert
failing (and a fresh exercise at weight 50, so the insert is genuinely
attempted — the no-failure run does add a record), the caller still gets a
201 success, not a generic server error. -/
theorem claim_C3_counterexample :
    ((logWorkoutRoute ⟨false, false, true⟩ 1
        ⟨5, "Bench Press", 3, 5, some 50, none⟩ ⟨[], []⟩ 10 11 12).1
      ).statusCode = 201 ∧
    ((logWorkoutRoute ⟨false, false, true⟩ 1
        ⟨5, "Bench Press", 3, 5, some 50, none⟩ ⟨[], []⟩ 10 11 12).2).prs =
      [] ∧
    ((logWorkoutRoute ⟨false, false, false⟩ 1
        ⟨5, "Bench Press", 3, 5, some 50, none⟩ ⟨[], []⟩ 10 11 12).2).prs ≠
      [] := by
  refine ⟨by decide, by decide, by decide⟩

/-- Witness for C3 (amended): a failing entry insert yields the generic 500
with the store unchanged. -/
theorem claim_C3_witness :
    logWorkoutRoute ⟨true, false, false⟩ 2 ⟨5, "Squat", 3, 5, some 60, none⟩
        ⟨[], []⟩ 1 2 3 =
      (.serverError "Server error while logging workout.", ⟨[], []⟩) :=
  (claim_C3_db_error_handling ⟨true, false, false⟩ 2
    ⟨5, "Squat", 3, 5, some 60, none⟩ ⟨[], []⟩ 1 2 3).1 rfl

/-- Claim C4: for any stored personal-record rows, `getCurrentPersonalRecords`
returns only rows of the user, exactly one row per (exercise name, record
type) group that the user has, and that row has the greatest value of its
group, with ties on value bounded by its (latest) date. -/
theorem claim_C4_current_records_grouping (u : Nat)
    (prs : List PersonalRecord) :
    (∀ r ∈ getCurrentPersonalRecords u prs, r ∈ prs ∧ r.user_id = u) ∧
    (∀ r ∈ prs, r.user_id = u →
      ∃ c ∈ getCurrentPersonalRecords u prs,
        c.exercise_name = r.exercise_name ∧
        c.record_type = r.record_type) ∧
    (∀ c₁ ∈ getCurrentPersonalRecords u prs,
      ∀ c₂ ∈ getCurrentPersonalRecords u prs,
        c₁.exercise_name = c₂.exercise_name →
        c₁.record_type = c₂.record_type → c₁ = c₂) ∧
    (∀ c ∈ getCurrentPersonalRecords u prs, ∀ r ∈ prs, r.user_id = u →
      r.exercise_name = c.exercise_name → r.record_type = c.record_type →
      r.value < c.value ∨ (r.value = c.value ∧ r.date ≤ c.date)) := by
  simp only [getCurrentPersonalRecords]
  refine ⟨?_, ?_, ?_, ?_⟩
  · intro r hr
    obtain ⟨k, -, hk⟩ := List.mem_filterMap.mp hr
    have hmem := pickBest_mem _ r hk
    have h1 := List.mem_filter.mp hmem
    have h2 := List.mem_filter.mp h1.1
    exact ⟨h2.1, by simpa using h2.2⟩
  · intro r hr hu
    have hrows : r ∈ prs.filter (fun rr => rr.user_id == u) :=
      List.mem_filter.mpr ⟨hr, by simp [hu]⟩
    have hkk : (r.exercise_name, r.record_type) ∈
        ((prs.filter (fun rr => rr.user_id == u)).map
          (fun rr => (rr.exercise_name, rr.record_type))).dedup :=
      List.mem_dedup.mpr (List.mem_map_of_mem _ hrows)
    have hrf : r ∈ (prs.filter (fun rr => rr.user_id == u)).filter
        (fun rr => rr.exercise_name == r.exercise_name &&
          rr.record_type == r.record_type) :=
      List.mem_filter.mpr ⟨hrows, by simp⟩
    obtain ⟨x, xs, hxx⟩ :=
      List.exists_cons_of_ne_nil (List.ne_nil_of_mem hrf)
    obtain ⟨c, hc⟩ : ∃ c, pickBest
        ((prs.filter (fun rr => rr.user_id == u)).filter
          (fun rr => rr.exercise_name == r.exercise_name &&
            rr.record_type == r.record_type)) = some c := by
      rw [hxx]
      exact Option.isSome_iff_exists.mp (pickBest_cons_isSome x xs)
    have hcmem := pickBest_mem _ c hc
    have hckey := (List.mem_filter.mp hcmem).2
    simp only [Bool.and_eq_true, beq_iff_eq] at hckey
    refine ⟨c, List.mem_filterMap.mpr
      ⟨(r.exercise_name, r.record_type), hkk, hc⟩, hckey.1, hckey.2⟩
  · intro c₁ hc₁ c₂ hc₂ hex hrt
    obtain ⟨⟨a₁, b₁⟩, -, hk₁⟩ := List.mem_filterMap.mp hc₁
    obtain ⟨⟨a₂, b₂⟩, -, hk₂⟩ := List.mem_filterMap.mp hc₂
    have hkey₁ := (List.mem_filter.mp (pickBest_mem _ c₁ hk₁)).2
    have hkey₂ := (List.mem_filter.mp (pickBest_mem _ c₂ hk₂)).2
    simp only [Bool.and_eq_true, beq_iff_eq] at hkey₁ hkey₂
    obtain ⟨he₁, ht₁⟩ := hkey₁
    obtain ⟨he₂, ht₂⟩ := hkey₂
    have ha : a₁ = a₂ := by rw [← he₁, ← he₂, hex]
    have hb : b₁ = b₂ := by rw [← ht₁, ← ht₂, hrt]
    rw [ha, hb, hk₂] at hk₁
    exact (Option.some_injective _ hk₁).symm
  · intro c hc r hr hu hex hrt
    obtain ⟨k, -, hk⟩ := List.mem_filterMap.mp hc
    have hkey := (List.mem_filter.mp (pickBest_mem _ c hk)).2
    simp only [Bool.and_eq_true, beq_iff_eq] at hkey
    have hrmem : r ∈ (prs.filter (fun rr => rr.user_id == u)).filter
        (fun rr => rr.exercise_name == k.1 && rr.record_type == k.2) := by
      refine List.mem_filter.mpr ⟨List.mem_filter.mpr ⟨hr, by simp [hu]⟩, ?_⟩
      simp [hex, hrt, hkey.1, hkey.2]
    exact pickBest_maximal _ c hk r hrmem

/-- Witness for C4: on a store with two records for the same group, the
single returned current record bounds the other row's value. -/
theorem claim_C4_witness :
    (⟨1, 1, "Bench Press", "max_weight", 80, 1, none, 1⟩ :
        PersonalRecord).value <
      (⟨2, 1, "Bench Press", "max_weight", 85, 2, none, 2⟩ :
        PersonalRecord).value ∨
    ((⟨1, 1, "Bench Press", "max_weight", 80, 1, none, 1⟩ :
        PersonalRecord).value =
      (⟨2, 1, "Bench Press", "max_weight", 85, 2, none, 2⟩ :
        PersonalRecord).value ∧
     (⟨1, 1, "Bench Press", "max_weight", 80, 1, none, 1⟩ :
        PersonalRecord).date ≤
      (⟨2, 1, "Bench Press", "max_weight", 85, 2, none, 2⟩ :
        PersonalRecord).date) :=
  (claim_C4_current_records_grouping 1
      [⟨1, 1, "Bench Press", "max_weight", 80, 1, none, 1⟩,
       ⟨2, 1, "Bench Press", "max_weight", 85, 2, none, 2⟩]).2.2.2
    ⟨2, 1, "Bench Press", "max_weight", 85, 2, none, 2⟩ (by decide)
    ⟨1, 1, "Bench Press", "max_weight", 80, 1, none, 1⟩ (by decide)
    rfl rfl rfl

/-- Counterexample to claim C5 as stated: the signup request with username
`<` (1 character, so shorter than 3) and a valid password succeeds and
persists a user, because the `.escape()` sanitizer runs before the
`isLength({min: 3})` check and expands `<` to `&lt;` (4 characters). -/
theorem claim_C5_counterexample :
    ("<" : String).length < 3 ∧
    (signup (fun _ => "HASH") "<" "abcdef" [] 1 0).1 =
      .createdUser 1 "&lt;" 1 "&lt;" ∧
    (signup (fun _ => "HASH") "<" "abcdef" [] 1 0).2 =
      [⟨1, "&lt;", "HASH", 0⟩] := by
  refine ⟨by decide, by decide, by decide⟩

/-- Claim C5 (amended): every signup request whose password is shorter than
6 characters, or whose username after the trim and HTML-escape sanitizers is
shorter than 3 characters, fails with a structured 400 carrying per-field
validation messages and persists no user row.  (A raw username shorter than
3 characters can still pass when escaping expands it.) -/
theorem claim_C5_signup_validation (hash : String → String)
    (username password : String) (users : List User) (fid now : Nat)
    (h : password.length < 6 ∨ (sanitizeUsername username).data.length < 3) :
    signup hash username password users fid now =
      (.badRequest (signupErrors username password), users) ∧
    signupErrors username password ≠ [] ∧
    (password.length < 6 →
      ("password", "Password must be at least 6 characters long.") ∈
        signupErrors username password) ∧
    ((sanitizeUsername username).data.length < 3 →
      ("username", "Username must be at least 3 characters long.") ∈
        signupErrors username password) := by
  have hne : signupErrors username password ≠ [] := by
    intro h0
    unfold signupErrors at h0
    rcases List.append_eq_nil.mp h0 with ⟨h1, h3⟩
    rcases List.append_eq_nil.mp h1 with ⟨-, h2⟩
    rcases h with hp | hu
    · rw [if_pos hp] at h3
      exact List.cons_ne_nil _ _ h3
    · rw [if_pos hu] at h2
      exact List.cons_ne_nil _ _ h2
  have hcond : ¬(signupErrors username password).isEmpty = true := by
    simpa [List.isEmpty_iff] using hne
  refine ⟨?_, hne, ?_, ?_⟩
  · simp only [signup]
    rw [if_neg hcond]
  · intro hp
    unfold signupErrors
    rw [if_pos hp]
    simp
  · intro hu
    unfold signupErrors
    rw [if_pos hu]
    simp

/-- Witness for C5 (amended): a 5-character password is rejected with the
validation errors and no user is persisted. -/
theorem claim_C5_witness :
    signup (fun _ => "HASH2") "a" "12345" [] 1 0 =
      (.badRequest (signupErrors "a" "12345"), []) :=
  (claim_C5_signup_validation (fun _ => "HASH2") "a" "12345" [] 1 0
    (Or.inl (by decide))).1

/-- Claim C6: a signup request that passes validation but whose (sanitized)
username already exists — matched case-sensitively and exactly by
`findByUsername` — fails with the 400 conflict body and leaves the user
store, in particular the original user's row, unchanged; no token is
issued. -/
theorem claim_C6_signup_conflict (hash : String → String)
    (username password : String) (users : List User) (fid now : Nat)
    (hvalid : signupErrors username password = []) (u : User)
    (hdup : findByUsername (sanitizeUsername username) users = some u) :
    signup hash username password users fid now =
      (.badRequest [("username", "User already exists")], users) := by
  simp [signup, hvalid, hdup]

/-- Witness for C6: signing up `alice` again conflicts and leaves the store
unchanged. -/
theorem claim_C6_witness :
    signup (fun _ => "H2") "alice" "secret1" [⟨1, "alice", "H", 0⟩] 2 5 =
      (.badRequest [("username", "User already exists")],
        [⟨1, "alice", "H", 0⟩]) :=
  claim_C6_signup_conflict (fun _ => "H2") "alice" "secret1"
    [⟨1, "alice", "H", 0⟩] 2 5 (by decide) ⟨1, "alice", "H", 0⟩ (by decide)

/-- Counterexample to claim C7 as stated: a login for an absent user answers
with HTTP status 400, not 401 — the route returns
`res.status(400).json({errors: [{general: 'Invalid credentials'}]})`. -/
theorem claim_C7_counterexample :
    login (fun _ _ => false) "alice" "secret1" [] =
      .badRequest [("general", "Invalid credentials")] ∧
    (login (fun _ _ => false) "alice" "secret1" []).statusCode = 400 ∧
    (login (fun _ _ => false) "alice" "secret1" []).statusCode ≠ 401 := by
  refine ⟨by decide, by decide, by decide⟩

/-- Claim C7 (amended): for every login request where the user is absent or
the password hash comparison fails, the route answers with the identical
400 response carrying the same generic `Invalid credentials` message in both
cases, never distinguishing a missing user from a wrong password, and no
token is issued. -/
theorem claim_C7_login_invalid_credentials (cmp : String → String → Bool)
    (username password : String) (users : List User)
    (hu : username.data.isEmpty = false)
    (hp : password.data.isEmpty = false) :
    (findByUsername (sanitizeUsername username) users = none →
      login cmp username password users =
        .badRequest [("general", "Invalid credentials")] ∧
      (login cmp username password users).statusCode = 400) ∧
    (∀ u, findByUsername (sanitizeUsername username) users = some u →
      cmp password u.password_hash = false →
      login cmp username password users =
        .badRequest [("general", "Invalid credentials")] ∧
      (login cmp username password users).statusCode = 400) := by
  have herrs : loginErrors username password = [] := by
    simp [loginErrors, hu, hp]
  constructor
  · intro hfind
    have hresp : login cmp username password users =
        .badRequest [("general", "Invalid credentials")] := by
      simp [login, herrs, hfind]
    exact ⟨hresp, by rw [hresp]; rfl⟩
  · intro u hfind hcmp
    have hresp : login cmp username password users =
        .badRequest [("general", "Invalid credentials")] := by
      simp [login, herrs, hfind, hcmp]
    exact ⟨hresp, by rw [hresp]; rfl⟩

/-- Witness for C7 (amended): a login for a user missing from an empty store
gets the generic 400 invalid-credentials response. -/
theorem claim_C7_witness :
    login (fun _ _ => false) "bob" "pw1234" [] =
      .badRequest [("general", "Invalid credentials")] ∧
    (login (fun _ _ => false) "bob" "pw1234" []).statusCode = 400 :=
  (claim_C7_login_invalid_credentials (fun _ _ => false) "bob" "pw1234" []
    (by decide) (by decide)).1 (by decide)

/-- Claim C8: every workout route runs the token gate first: a request whose
Authorization header carries no token is answered 401; a present token that
fails verification (invalid signature, expired) is answered 403; otherwise
the decoded `{id, username}` payload is handed to the route handler, and the
handler runs exactly in that case. -/
theorem claim_C8_auth_gate {α : Type}
    (verify : String → Option (Nat × String)) (authHeader : Option String)
    (handler : Nat → String → α) :
    (extractToken authHeader = none →
      runProtected verify authHeader handler = .unauthorized ∧
      gateStatus (authenticateToken verify authHeader) = some 401) ∧
    (∀ t, extractToken authHeader = some t → verify t = none →
      runProtected verify authHeader handler = .forbidden ∧
      gateStatus (authenticateToken verify authHeader) = some 403) ∧
    (∀ t uid uname, extractToken authHeader = some t →
      verify t = some (uid, uname) →
      runProtected verify authHeader handler =
        .handled (handler uid uname)) ∧
    (∀ res, runProtected verify authHeader handler = .handled res →
      ∃ t uid uname, extractToken authHeader = some t ∧
        verify t = some (uid, uname) ∧ res = handler uid uname) := by
  refine ⟨?_, ?_, ?_, ?_⟩
  · intro hnone
    constructor
    · simp [runProtected, authenticateToken, hnone]
    · simp [authenticateToken, hnone, gateStatus]
  · intro t ht hv
    constructor
    · simp [runProtected, authenticateToken, ht, hv]
    · simp [authenticateToken, ht, hv, gateStatus]
  · intro t uid uname ht hv
    simp [runProtected, authenticateToken, ht, hv]
  · intro res hres
    unfold runProtected authenticateToken at hres
    cases hext : extractToken authHeader with
    | none =>
      rw [hext] at hres
      simp at hres
    | some t =>
      rw [hext] at hres
      dsimp only at hres
      cases hv : verify t with
      | none =>
        rw [hv] at hres
        simp at hres
      | some p =>
        rw [hv] at hres
        simp at hres
        exact ⟨t, p.1, p.2, rfl, by rw [hv], hres.symm⟩

/-- Witness for C8: a request with no Authorization header is rejected with
401 before the records handler runs. -/
theorem claim_C8_witness :
    runProtected (fun _ => some (1, "alice")) none
      (fun uid _ => getCurrentPersonalRecords uid []) =
      GateOutcome.unauthorized ∧
    gateStatus (authenticateToken (fun _ => some (1, "alice")) none) =
      some 401 :=
  (claim_C8_auth_gate (fun _ => some (1, "alice")) none
    (fun uid _ => getCurrentPersonalRecords uid [])).1 rfl

/-- Claim C9: for every user and (non-blank) exercise name, the progress
route returns exactly the user's workout entries with a non-null weight whose
exercise name matches case-insensitively, sorted ascending by date and
projected to their (date, weight, reps, sets, exercise_name) columns; when no
such entry exists it answers 404 instead of an empty list. -/
theorem claim_C9_progress (u : Nat) (rawName : String)
    (entries : List WorkoutEntry)
    (hname : (trimStr rawName).data.isEmpty = false) :
    (entries.filter (progressMatches u (trimStr rawName)) = [] →
      progressRoute u rawName entries =
        .notFound ("No progress data found for exercise: " ++ rawName) ∧
      (progressRoute u rawName entries).statusCode = 404) ∧
    (entries.filter (progressMatches u (trimStr rawName)) ≠ [] →
      progressRoute u rawName entries =
        .ok (getExerciseProgressData u (trimStr rawName) entries) ∧
      (progressRoute u rawName entries).statusCode = 200 ∧
      (getExerciseProgressData u (trimStr rawName) entries).Perm
        ((entries.filter (progressMatches u (trimStr rawName))).map
          toProgressRow) ∧
      List.Pairwise (fun a b => a.date ≤ b.date)
        (getExerciseProgressData u (trimStr rawName) entries)) := by
  constructor
  · intro hempty
    have hrows : getExerciseProgressData u (trimStr rawName) entries = [] := by
      unfold getExerciseProgressData
      rw [hempty]
      rfl
    have hroute : progressRoute u rawName entries =
        .notFound ("No progress data found for exercise: " ++ rawName) := by
      simp [progressRoute, hname, hrows]
    exact ⟨hroute, by rw [hroute]; rfl⟩
  · intro hne
    have hrows : getExerciseProgressData u (trimStr rawName) entries ≠ [] := by
      unfold getExerciseProgressData
      intro h0
      rw [List.map_eq_nil_iff] at h0
      have hperm := List.perm_insertionSort dateLe
        (entries.filter (progressMatches u (trimStr rawName)))
      rw [h0] at hperm
      exact hne hperm.symm.eq_nil
    have hroute : progressRoute u rawName entries =
        .ok (getExerciseProgressData u (trimStr rawName) entries) := by
      simp [progressRoute, hname, List.isEmpty_eq_false.mpr hrows]
    refine ⟨hroute, by rw [hroute]; rfl, ?_, ?_⟩
    · exact (List.perm_insertionSort dateLe
        (entries.filter (progressMatches u (trimStr rawName)))).map
        toProgressRow
    · exact List.Pairwise.map toProgressRow (fun a b hab => hab)
        (List.sorted_insertionSort dateLe
          (entries.filter (progressMatches u (trimStr rawName))))

/-- Witness for C9: an exercise with zero weighted entries answers 404. -/
theorem claim_C9_witness :
    progressRoute 1 "Bench" [] =
      ProgressResponse.notFound
        ("No progress data found for exercise: " ++ "Bench") ∧
    (progressRoute 1 "Bench" []).statusCode = 404 :=
  (claim_C9_progress 1 "Bench" [] (by decide)).1 rfl

end Fitness
